import Mathlib

/-!
Shallow embedding of the metadata-extraction core of `src/lib/entry.rs`
(bookmark-entry construction: multi-standard fallback resolution of title,
site name, authors, description and thumbnail from a parsed HTML document).

External crates (`url`, `serde_json`'s parser, `scraper`'s HTML parser,
`ureq` network access, `readability`) appear as explicit collaborator
functions bundled in a context structure; everything of `entry.rs` itself
is translated directly.
-/

namespace Spy

/-! ## Text normalizer: `collapse_ws` and Rust `str::trim`

Rust `char::is_whitespace` is the Unicode `White_Space` property; Rust
`str::trim` trims exactly those characters. -/

def rustIsWhitespace (c : Char) : Bool :=
  let n := c.toNat
  (0x9 ≤ n && n ≤ 0xD) || n == 0x20 || n == 0x85 || n == 0xA0 || n == 0x1680 ||
    (0x2000 ≤ n && n ≤ 0x200A) || n == 0x2028 || n == 0x2029 || n == 0x202F ||
    n == 0x205F || n == 0x3000

def trimChars (l : List Char) : List Char :=
  (l.dropWhile rustIsWhitespace).rdropWhile rustIsWhitespace

/-- Rust `str::trim` on a Lean string. -/
def rustTrimS (s : String) : String :=
  String.mk (trimChars s.data)

/-- Rust `str::starts_with` (UTF-8 byte prefix = character-list prefix). -/
def strStartsWith (s pre : String) : Bool :=
  pre.data.isPrefixOf s.data

/-- Rust `char::to_ascii_lowercase`. -/
def asciiLowerChar (c : Char) : Char :=
  if 65 ≤ c.toNat ∧ c.toNat ≤ 90 then Char.ofNat (c.toNat + 32) else c

/-- Rust `str::to_ascii_lowercase`. -/
def asciiLower (s : String) : String :=
  String.mk (s.data.map asciiLowerChar)

/-- The character loop of `collapse_ws` (entry.rs lines 214-227): every
whitespace character becomes an ASCII space, and only the first of a run
is kept. -/
def collapseGo : List Char → Bool → List Char
  | [], _ => []
  | c :: cs, wasSpace =>
    if rustIsWhitespace c then
      if wasSpace then collapseGo cs true
      else ' ' :: collapseGo cs true
    else c :: collapseGo cs false

/-- `collapse_ws` (entry.rs lines 214-229): collapse whitespace runs to a
single ASCII space, then trim both ends. -/
def collapse_ws (s : String) : String :=
  String.mk (trimChars (collapseGo s.data false))



/-- Pairs of adjacent characters never are both whitespace. -/
def NoAdjWs (l : List Char) : Prop :=
  List.Chain' (fun a b => rustIsWhitespace a = false ∨ rustIsWhitespace b = false) l

/-- A string is in normal form when re-normalizing does not change it; by
`collapse_ws_idem` every `collapse_ws` output is. -/
def IsNormalized (s : String) : Prop := collapse_ws s = s

/-! ## HTML document model and the selector forms used by `entry.rs`

`scraper::Html` is modelled as a tree of element and text nodes;
`Selector::parse` is applied only to the fixed selector strings of
`entry.rs`, whose parsed forms are written out as `Sel` constants below.
`doc.select(sel)` yields matching elements in document (pre-)order. -/

inductive HNode where
  | elem (tag : String) (attrs : List (String × String)) (children : List HNode)
  | text (s : String)

abbrev Doc := List HNode

def getAttr (attrs : List (String × String)) (name : String) : Option String :=
  (attrs.find? (fun p => p.1 == name)).map (·.2)

/-- One attribute condition of a compound selector. -/
inductive ACond where
  /-- `[a="v"]` -/
  | eqv (a v : String)
  /-- `[a~="v"]` (also `.v` class selectors, as `word "class" v`) -/
  | word (a v : String)
  /-- `[a*="v"]` -/
  | substr (a v : String)
  /-- `[a]` -/
  | pres (a : String)
deriving DecidableEq, Repr

def splitCharsGo (p : Char → Bool) : List Char → List Char → List (List Char)
  | [], acc => [acc.reverse]
  | c :: cs, acc =>
    if p c then acc.reverse :: splitCharsGo p cs [] else splitCharsGo p cs (c :: acc)

/-- CSS `~=`: the attribute value split on ASCII whitespace contains the word. -/
def splitWsWords (v : String) : List String :=
  ((splitCharsGo (fun c => c == ' ' || c == '\t' || c == '\n' || c == '\x0d' || c == '\x0c')
      v.data []).map String.mk).filter (fun w => w ≠ "")

/-- Rust `str::contains(sub)` (also CSS `*=`): `sub` occurs contiguously. -/
def charsInfixOf : List Char → List Char → Bool
  | sub, [] => sub.isEmpty
  | sub, c :: cs => sub.isPrefixOf (c :: cs) || charsInfixOf sub cs

def strContainsSub (s sub : String) : Bool :=
  charsInfixOf sub.data s.data

def condHolds (attrs : List (String × String)) : ACond → Bool
  | .eqv a v => getAttr attrs a == some v
  | .word a v =>
    match getAttr attrs a with
    | some s => (splitWsWords s).contains v
    | none => false
  | .substr a v =>
    match getAttr attrs a with
    | some s => strContainsSub s v
    | none => false
  | .pres a => (getAttr attrs a).isSome

structure Compound where
  tag : Option String
  conds : List ACond
deriving DecidableEq, Repr

def compoundHolds (tag : String) (attrs : List (String × String)) (c : Compound) : Bool :=
  (match c.tag with
   | some t => t == tag
   | none => true) && c.conds.all (condHolds attrs)

inductive Comb where
  | descendant
  | childOf
deriving DecidableEq, Repr

/-- The tag and attributes of an ancestor element, for combinator matching. -/
structure EHead where
  tag : String
  attrs : List (String × String)
deriving DecidableEq, Repr

/-- A parsed selector: the rightmost (target) compound, plus the remaining
compounds paired with the combinator to their right, innermost first. -/
structure Sel where
  target : Compound
  chain : List (Comb × Compound)
deriving DecidableEq, Repr

/-- Match the ancestor part of a selector against the ancestor stack
(innermost ancestor first). -/
def chainHolds : List (Comb × Compound) → List EHead → Bool
  | [], _ => true
  | (.childOf, _) :: _, [] => false
  | (.childOf, c) :: rest, a :: as => compoundHolds a.tag a.attrs c && chainHolds rest as
  | (.descendant, _) :: _, [] => false
  | (.descendant, c) :: rest, a :: as =>
    (compoundHolds a.tag a.attrs c && chainHolds rest as) ||
      chainHolds ((.descendant, c) :: rest) as

def selHolds (anc : List EHead) (tag : String) (attrs : List (String × String))
    (sel : Sel) : Bool :=
  compoundHolds tag attrs sel.target && chainHolds sel.chain anc

/-- A matched element, carrying its subtree for text and scoped queries. -/
structure Elem where
  tag : String
  attrs : List (String × String)
  children : List HNode

mutual

def selectNode (sel : Sel) (anc : List EHead) : HNode → List Elem
  | .text _ => []
  | .elem t a ch =>
    (if selHolds anc t a sel then [⟨t, a, ch⟩] else []) ++
      selectNodes sel (⟨t, a⟩ :: anc) ch

def selectNodes (sel : Sel) (anc : List EHead) : List HNode → List Elem
  | [] => []
  | n :: ns => selectNode sel anc n ++ selectNodes sel anc ns

end

/-- `doc.select(sel)` over the whole document. -/
def docSelect (doc : Doc) (sel : Sel) : List Elem :=
  selectNodes sel [] doc

/-- `ElementRef::select`: matches within the element's descendants. -/
def elemSelect (e : Elem) (sel : Sel) : List Elem :=
  selectNodes sel [⟨e.tag, e.attrs⟩] e.children

mutual

def nodeText : HNode → String
  | .text s => s
  | .elem _ _ ch => nodesText ch

def nodesText : List HNode → String
  | [] => ""
  | n :: ns => nodeText n ++ nodesText ns

end

/-- `ElementRef::text().collect::<String>()`. -/
def elemText (e : Elem) : String :=
  nodesText e.children

/-! ## Document accessors (entry.rs `first_text`, `first_attr`,
`first_attr_all`, `first_attr_all_in`, `first_text_in`) -/

def first_text (doc : Doc) (sel : Sel) : Option String :=
  match (docSelect doc sel).head? with
  | some e =>
    let s := collapse_ws (elemText e)
    if s ≠ "" then some s else none
  | none => none

def first_attr (doc : Doc) (sel : Sel) (attr : String) : Option String :=
  (((docSelect doc sel).filterMap (fun e => getAttr e.attrs attr)).map collapse_ws).find?
    (fun s => s ≠ "")

def setOfNonEmpty (vals : List String) : Finset String :=
  ((vals.map collapse_ws).filter (fun s => s ≠ "")).toFinset

def first_attr_all (doc : Doc) (sel : Sel) (attr : String) : Option (Finset String) :=
  let out := setOfNonEmpty ((docSelect doc sel).filterMap (fun e => getAttr e.attrs attr))
  if out = ∅ then none else some out

def first_attr_all_in (e : Elem) (sel : Sel) (attr : String) : Option (Finset String) :=
  let out := setOfNonEmpty ((elemSelect e sel).filterMap (fun c => getAttr c.attrs attr))
  if out = ∅ then none else some out

def first_text_in (e : Elem) (sel : Sel) : Option String :=
  match (elemSelect e sel).head? with
  | some c =>
    let s := collapse_ws (elemText c)
    if s ≠ "" then some s else none
  | none => none

/-! ## JSON value model (`serde_json::Value`) -/

inductive Json where
  | null
  | bool (b : Bool)
  | num (n : Int)
  | str (s : String)
  | arr (elems : List Json)
  | obj (members : List (String × Json))

/-- `Map::get` on an object's member list. -/
def jget (m : List (String × Json)) (k : String) : Option Json :=
  (m.find? (fun p => p.1 == k)).map (·.2)

/-- `Value::get`: member lookup, `None` on non-objects. -/
def Json.get : Json → String → Option Json
  | .obj m, k => jget m k
  | _, _ => none

def Json.asStr : Json → Option String
  | .str s => some s
  | _ => none

def Json.asBool : Json → Option Bool
  | .bool b => some b
  | _ => none

def Json.asObj : Json → Option (List (String × Json))
  | .obj m => some m
  | _ => none

theorem sizeOf_lt_of_mem_arr {a : List Json} {x : Json} (h : x ∈ a) :
    sizeOf x < 1 + sizeOf a := by
  have := List.sizeOf_lt_of_mem h
  omega

theorem sizeOf_snd_lt_of_mem {m : List (String × Json)} {p : String × Json} (h : p ∈ m) :
    sizeOf p.2 < 1 + sizeOf m := by
  have h1 := List.sizeOf_lt_of_mem h
  have h2 : sizeOf p.2 < sizeOf p := by
    obtain ⟨a, b⟩ := p
    simp
  omega

theorem sizeOf_jget {m : List (String × Json)} {k : String} {v : Json}
    (h : jget m k = some v) : sizeOf v < 1 + sizeOf m := by
  unfold jget at h
  cases hf : m.find? (fun p => p.1 == k) with
  | none => rw [hf] at h; cases h
  | some p =>
    rw [hf] at h
    simp only [Option.map_some', Option.some.injEq] at h
    have hmem := List.mem_of_find?_eq_some hf
    rw [← h]
    exact sizeOf_snd_lt_of_mem hmem

theorem jget_lt {m : List (String × Json)} {k : String} {v : Json}
    (h : jget m k = some v) : sizeOf v < sizeOf (Json.obj m) := by
  have := sizeOf_jget h
  simp only [Json.obj.sizeOf_spec]
  omega

theorem memObj_lt {m : List (String × Json)} {p : String × Json} (h : p ∈ m) :
    sizeOf p.2 < sizeOf (Json.obj m) := by
  have := sizeOf_snd_lt_of_mem h
  simp only [Json.obj.sizeOf_spec]
  omega

theorem memArr_lt {a : List Json} {x : Json} (h : x ∈ a) :
    sizeOf x < sizeOf (Json.arr a) := by
  have := sizeOf_lt_of_mem_arr h
  simp only [Json.arr.sizeOf_spec]
  omega

/-! ## Structured-data walkers (entry.rs) -/

/-- Push `s.trim()` when the given key holds a non-empty-after-trim JSON
string (the shared shape of the title/description key loops). -/
def strKeyPush (m : List (String × Json)) (k : String) : List String :=
  match jget m k with
  | some (.str s) =>
    let t := rustTrimS s
    if t ≠ "" then [t] else []
  | _ => []

/-- `collect_schema_titles` (entry.rs lines 169-195). -/
def collect_schema_titles : Json → List String
  | .obj m =>
    (strKeyPush m "headline" ++ strKeyPush m "name" ++ strKeyPush m "alternativeHeadline") ++
      (match hg : jget m "@graph" with
       | some g => collect_schema_titles g
       | none => []) ++
      (m.attach.map (fun p => collect_schema_titles p.1.2)).flatten
  | .arr a => (a.attach.map (fun x => collect_schema_titles x.1)).flatten
  | _ => []
termination_by v => sizeOf v
decreasing_by
  · exact jget_lt hg
  · exact memObj_lt p.2
  · exact memArr_lt x.2

/-- `collect_schema_descriptions` (entry.rs lines 756-781). -/
def collect_schema_descriptions : Json → List String
  | .obj m =>
    (strKeyPush m "description" ++ strKeyPush m "abstract") ++
      (match hg : jget m "@graph" with
       | some g => collect_schema_descriptions g
       | none => []) ++
      (m.attach.map (fun p => collect_schema_descriptions p.1.2)).flatten
  | .arr a => (a.attach.map (fun x => collect_schema_descriptions x.1)).flatten
  | _ => []
termination_by v => sizeOf v
decreasing_by
  · exact jget_lt hg
  · exact memObj_lt p.2
  · exact memArr_lt x.2

/-- `collect_schema_site_names` (entry.rs lines 299-333): an object's `name`
behind the `@type`-contains-"WebSite" string gate, `publisher.name`, a
recursion into `publisher`, `@graph`, then every member. -/
def collect_schema_site_names : Json → List String
  | .obj m =>
    (match jget m "@type" with
     | some (.str t) =>
       if strContainsSub t "WebSite" then
         match jget m "name" with
         | some (.str n) =>
           let tn := rustTrimS n
           if tn ≠ "" then [tn] else []
         | _ => []
       else []
     | _ => []) ++
      (match hp : jget m "publisher" with
       | some p =>
         (match (p.get "name").bind Json.asStr with
          | some name =>
            let tn := rustTrimS name
            if tn ≠ "" then [tn] else []
          | none => []) ++ collect_schema_site_names p
       | none => []) ++
      (match hg : jget m "@graph" with
       | some g => collect_schema_site_names g
       | none => []) ++
      (m.attach.map (fun p => collect_schema_site_names p.1.2)).flatten
  | .arr a => (a.attach.map (fun x => collect_schema_site_names x.1)).flatten
  | _ => []
termination_by v => sizeOf v
decreasing_by
  · exact jget_lt hp
  · exact jget_lt hg
  · exact memObj_lt p.2
  · exact memArr_lt x.2

/-- `looks_like_url` (entry.rs lines 655-658). -/
def looks_like_url (s : String) : Bool :=
  strStartsWith (asciiLower s) "http://" || strStartsWith (asciiLower s) "https://"

/-- The `givenName`/`familyName` joining branch of `extract_author_node`. -/
def givenFamilyName (m : List (String × Json)) : Finset String :=
  let gn := rustTrimS (((jget m "givenName").bind Json.asStr).getD "")
  let fn2 := rustTrimS (((jget m "familyName").bind Json.asStr).getD "")
  if gn ≠ "" ∧ fn2 ≠ "" then {gn ++ " " ++ fn2}
  else if gn ≠ "" then {gn}
  else if fn2 ≠ "" then {fn2}
  else ∅

/-- `extract_author_node` (entry.rs lines 604-653). -/
def extract_author_node : Json → Finset String
  | .str s =>
    let t := rustTrimS s
    if t ≠ "" ∧ looks_like_url t = false then {t} else ∅
  | .obj m =>
    (match jget m "name" with
     | some (.str n) =>
       let t := rustTrimS n
       if t ≠ "" then {t} else givenFamilyName m
     | _ => givenFamilyName m)
  | .arr a => (a.attach.map (fun x => extract_author_node x.1)).foldr (· ∪ ·) ∅
  | _ => ∅
termination_by v => sizeOf v
decreasing_by
  · exact memArr_lt x.2

/-- `collect_schema_authors` (entry.rs lines 577-602). -/
def collect_schema_authors : Json → Finset String
  | .obj m =>
    (match jget m "author" with
     | some a => extract_author_node a
     | none => ∅) ∪
      (match jget m "creator" with
       | some a => extract_author_node a
       | none => ∅) ∪
      (match hg : jget m "@graph" with
       | some g => collect_schema_authors g
       | none => ∅) ∪
      (m.attach.map (fun p => collect_schema_authors p.1.2)).foldr (· ∪ ·) ∅
  | .arr a => (a.attach.map (fun x => collect_schema_authors x.1)).foldr (· ∪ ·) ∅
  | _ => ∅
termination_by v => sizeOf v
decreasing_by
  · exact jget_lt hg
  · exact memObj_lt p.2
  · exact memArr_lt x.2

/-- `push_clean` (entry.rs lines 1027-1032). -/
def push_clean (s : String) : List String :=
  let u := rustTrimS s
  if u ≠ "" then [u] else []

/-- `push_image_value` (entry.rs lines 1002-1017). -/
def push_image_value : Json → List String
  | .str s => push_clean s
  | .obj m =>
    (match (jget m "contentUrl").orElse (fun _ => jget m "url") with
     | some (.str u) => push_clean u
     | _ => [])
  | .arr a => (a.attach.map (fun x => push_image_value x.1)).flatten
  | _ => []
termination_by v => sizeOf v
decreasing_by
  · exact memArr_lt x.2

/-- `is_type` (entry.rs lines 1019-1025): a string `@type` must be equal,
an array `@type` must contain the type. -/
def is_type (m : List (String × Json)) (t : String) : Bool :=
  match jget m "@type" with
  | some (.str s) => s == t
  | some (.arr a) => a.any (fun v => v.asStr == some t)
  | _ => false

/-- `collect_primary_image` (entry.rs lines 943-966): only
`WebPage.primaryImageOfPage`, through the `is_type` gate. -/
def collect_primary_image : Json → List String
  | .obj m =>
    (if is_type m "WebPage" then
      match jget m "primaryImageOfPage" with
      | some x => push_image_value x
      | none => []
    else []) ++
      (match hg : jget m "@graph" with
       | some g => collect_primary_image g
       | none => []) ++
      (m.attach.map (fun p => collect_primary_image p.1.2)).flatten
  | .arr a => (a.attach.map (fun x => collect_primary_image x.1)).flatten
  | _ => []
termination_by v => sizeOf v
decreasing_by
  · exact jget_lt hg
  · exact memObj_lt p.2
  · exact memArr_lt x.2

/-- `collect_generic_image` (entry.rs lines 968-1000), state-passing over the
candidate accumulator because `out.splice(0..0, tmp)` prepends the image of a
`representativeOfPage == true` object to everything collected so far. -/
def collect_generic_image : Json → List String → List String
  | .obj m, out =>
    let out1 :=
      match jget m "image" with
      | some x =>
        match x.asObj with
        | some img =>
          if (jget img "representativeOfPage").bind Json.asBool == some true then
            push_image_value x ++ out
          else out ++ push_image_value x
        | none => out ++ push_image_value x
      | none => out
    let out2 :=
      match hg : jget m "@graph" with
      | some g => collect_generic_image g out1
      | none => out1
    m.attach.foldl (fun acc p => collect_generic_image p.1.2 acc) out2
  | .arr a, out => a.attach.foldl (fun acc x => collect_generic_image x.1 acc) out
  | _, out => out
termination_by v _ => sizeOf v
decreasing_by
  · exact jget_lt hg
  · exact memObj_lt p.2
  · exact memArr_lt x.2

/-- `trim_at` (entry.rs lines 573-575): trim, then strip every leading `@`. -/
def trim_at (s : String) : String :=
  String.mk ((rustTrimS s).data.dropWhile (fun c => c == '@'))

/-! ## Collaborator context

The boundary to the external crates: `url` (host of the page URL, joining
against it, absolute parsing into scheme and serialization), `ureq`
(secondary fetches, `none` on any call/read failure), `serde_json`'s
parser, `scraper`'s HTML parser, `readability`, and `uuid`. -/

structure Ctx where
  baseUrl : String
  host : Option String
  joinBase : String → Option String
  parseUrl : String → Option (String × String)
  net : String → Option String
  parseJson : String → Option Json
  parseHtml : String → Doc
  readability : String → Option String
  freshId : String

/-! ## Parsed forms of the fixed selector strings of entry.rs -/

def selHeadTitle : Sel := ⟨⟨some "title", []⟩, [(.childOf, ⟨some "head", []⟩)]⟩

def selHeadMetaProp (v : String) : Sel :=
  ⟨⟨some "meta", [.eqv "property" v]⟩, [(.descendant, ⟨some "head", []⟩)]⟩

def selHeadMetaName (v : String) : Sel :=
  ⟨⟨some "meta", [.eqv "name" v]⟩, [(.descendant, ⟨some "head", []⟩)]⟩

def selHeadMeta : Sel := ⟨⟨some "meta", []⟩, [(.descendant, ⟨some "head", []⟩)]⟩

def selAttrEq (a v : String) : Sel := ⟨⟨none, [.eqv a v]⟩, []⟩

def selClass (c : String) : Sel := ⟨⟨none, [.word "class" c]⟩, []⟩

def selClass2 (c1 c2 : String) : Sel :=
  ⟨⟨none, [.word "class" c2]⟩, [(.descendant, ⟨none, [.word "class" c1]⟩)]⟩

def selClassBoth (c1 c2 : String) : Sel := ⟨⟨none, [.word "class" c1, .word "class" c2]⟩, []⟩

def selLinkRelWord (w : String) : Sel := ⟨⟨some "link", [.word "rel" w]⟩, []⟩

def selARelWord (w : String) : Sel := ⟨⟨some "a", [.word "rel" w]⟩, []⟩

def selLdJson : Sel := ⟨⟨some "script", [.eqv "type" "application/ld+json"]⟩, []⟩

def selItemtypeName (t : String) : Sel :=
  ⟨⟨none, [.eqv "itemprop" "name"]⟩,
    [(.descendant, ⟨none, [.pres "itemscope", .substr "itemtype" t]⟩)]⟩

def selTagDesc (t1 t2 : String) : Sel := ⟨⟨some t2, []⟩, [(.descendant, ⟨some t1, []⟩)]⟩

def selTag (t : String) : Sel := ⟨⟨some t, []⟩, []⟩

def selLinkRelEq (v : String) : Sel := ⟨⟨some "link", [.eqv "rel" v]⟩, []⟩

/-- All successfully parsed JSON-LD script blocks, in document order. -/
def ldJsonValues (ctx : Ctx) (doc : Doc) : List Json :=
  (docSelect doc selLdJson).filterMap (fun e => ctx.parseJson (elemText e))

/-! ## Title strategies -/

def json_ld_title (ctx : Ctx) (doc : Doc) : Option String :=
  ((((ldJsonValues ctx doc).map collect_schema_titles).flatten).map collapse_ws).find?
    (fun s => s ≠ "")

def dublin_core_meta (doc : Doc) : Option String :=
  (docSelect doc selHeadMeta).findSome? (fun e =>
    let lname := asciiLower ((getAttr e.attrs "name").getD "")
    if lname == "dc.title" || lname == "dcterms.title" then
      match getAttr e.attrs "content" with
      | some v =>
        let s := collapse_ws v
        if s ≠ "" then some s else none
      | none => none
    else none)

/-- The page-title fallback chain of `Entry::new` (entry.rs lines 57-82),
without the caller-supplied override. -/
def pageTitleResolve (ctx : Ctx) (doc : Doc) : Option String :=
  (first_text doc selHeadTitle).or
    ((first_attr doc (selHeadMetaProp "og:title") "content").or
      ((first_attr doc (selHeadMetaName "twitter:title") "content").or
        ((json_ld_title ctx doc).or
          (((first_attr doc (selAttrEq "itemprop" "headline") "content").or
            ((first_text doc (selAttrEq "itemprop" "headline")).or
              ((first_attr doc (selAttrEq "itemprop" "name") "content").or
                (first_text doc (selAttrEq "itemprop" "name"))))).or
            (((first_text doc (selClass2 "h-entry" "p-name")).or
              ((first_text doc (selClass "p-name")).or
                (first_text doc (selClass2 "h-entry" "entry-title")))).or
              (((first_attr doc (selAttrEq "property" "schema:headline") "content").or
                ((first_text doc (selAttrEq "property" "schema:headline")).or
                  ((first_attr doc (selAttrEq "property" "schema:name") "content").or
                    ((first_text doc (selAttrEq "property" "schema:name")).or
                      ((first_attr doc (selAttrEq "property" "dcterms:title") "content").or
                        (first_text doc (selAttrEq "property" "dcterms:title"))))))).or
                (dublin_core_meta doc)))))))

/-! ## Site-name strategies (entry.rs lines 231-341) -/

def og_site_name (doc : Doc) : Option String :=
  first_attr doc (selHeadMetaProp "og:site_name") "content"

/-- `manifest_site_name`: follow `<link rel~=manifest>`, fetch, parse, and
return the manifest's `name` or `short_name` string verbatim. -/
def manifest_site_name (ctx : Ctx) (doc : Doc) : Option String :=
  match ((docSelect doc (selLinkRelWord "manifest")).filterMap
      (fun l => getAttr l.attrs "href")).head? with
  | none => none
  | some href =>
    match ctx.joinBase href with
    | none => none
    | some manifestUrl =>
      match ctx.net manifestUrl with
      | none => none
      | some text =>
        match ctx.parseJson text with
        | none => none
        | some v => ((v.get "name").bind Json.asStr).or ((v.get "short_name").bind Json.asStr)

def selWebSiteName : Sel := selItemtypeName "schema.org/WebSite"

def selOrgName : Sel := selItemtypeName "schema.org/Organization"

def schema_site_name (ctx : Ctx) (doc : Doc) : Option String :=
  match ((((ldJsonValues ctx doc).map collect_schema_site_names).flatten).map collapse_ws).find?
      (fun s => s ≠ "") with
  | some s => some s
  | none =>
    (first_attr doc selWebSiteName "content").or
      ((first_text doc selWebSiteName).or
        ((first_attr doc selOrgName "content").or
          ((first_text doc selOrgName).or
            ((first_attr doc (selAttrEq "property" "schema:name") "content").or
              (first_text doc (selAttrEq "property" "schema:name"))))))

def microformats_site_name (doc : Doc) : Option String :=
  (first_text doc (selClass2 "h-card" "p-name")).or (first_text doc (selClass "p-name"))

def meta_application_name (doc : Doc) : Option String :=
  first_attr doc (selHeadMetaName "application-name") "content"

/-- The site-title fallback chain of `Entry::new` (entry.rs lines 84-90). -/
def siteTitleResolve (ctx : Ctx) (doc : Doc) : String :=
  ((og_site_name doc).or
    ((manifest_site_name ctx doc).or
      ((schema_site_name ctx doc).or
        ((microformats_site_name doc).or
          ((meta_application_name doc).or ctx.host))))).getD ""

/-! ## Author strategies (entry.rs lines 343-523) -/

def meta_author (doc : Doc) : Option (Finset String) :=
  first_attr_all doc (selHeadMetaName "author") "content"

def relAuthorFrom (doc : Doc) (sel : Sel) : Finset String :=
  (docSelect doc sel).foldl
    (fun out el =>
      let t := collapse_ws (elemText el)
      if t ≠ "" then insert t out
      else
        match getAttr el.attrs "title" with
        | some ti =>
          let s := collapse_ws ti
          if s ≠ "" then insert s out else out
        | none => out)
    ∅

def link_rel_author (doc : Doc) : Option (Finset String) :=
  let out := relAuthorFrom doc (selARelWord "author") ∪ relAuthorFrom doc (selLinkRelWord "author")
  if out = ∅ then none else some out

def json_ld_authors (ctx : Ctx) (doc : Doc) : Option (Finset String) :=
  let out := (ldJsonValues ctx doc).foldl (fun acc v => acc ∪ collect_schema_authors v) ∅
  if out = ∅ then none else some out

/-- All non-empty normalized element texts of a selection, as a set. -/
def textSetOf (els : List Elem) : Finset String :=
  els.foldl
    (fun a el =>
      let t := collapse_ws (elemText el)
      if t ≠ "" then insert t a else a)
    ∅

def microdata_authors (doc : Doc) : Option (Finset String) :=
  let out0 :=
    match first_attr_all doc (selAttrEq "itemprop" "author") "content" with
    | some s => s
    | none => ∅
  let out := (docSelect doc (selAttrEq "itemprop" "author")).foldl
    (fun acc el =>
      let acc1 :=
        let t := collapse_ws (elemText el)
        if t ≠ "" then insert t acc else acc
      let acc2 :=
        match first_attr_all_in el (selAttrEq "itemprop" "name") "content" with
        | some s => acc1 ∪ s
        | none => acc1
      acc2 ∪ textSetOf (elemSelect el (selAttrEq "itemprop" "name")))
    out0
  if out = ∅ then none else some out

def rdfa_authors (doc : Doc) : Option (Finset String) :=
  let out0 :=
    match first_attr_all doc (selAttrEq "property" "schema:author") "content" with
    | some s => s
    | none => ∅
  let out := out0 ∪ textSetOf (docSelect doc (selAttrEq "property" "schema:author")) ∪
    textSetOf (docSelect doc (selAttrEq "property" "schema:name"))
  if out = ∅ then none else some out

def mfAuthorFrom (doc : Doc) (sel : Sel) : Finset String :=
  (docSelect doc sel).foldl
    (fun acc el =>
      let acc1 :=
        match first_text_in el (selClass "p-name") with
        | some n => insert n acc
        | none => acc
      let t := collapse_ws (elemText el)
      if t ≠ "" then insert t acc1 else acc1)
    ∅

def microformats_authors (doc : Doc) : Option (Finset String) :=
  let out := mfAuthorFrom doc (selClass2 "h-entry" "p-author") ∪
    mfAuthorFrom doc (selClass "p-author") ∪
    mfAuthorFrom doc (selClass2 "h-entry" "author") ∪
    mfAuthorFrom doc (selClassBoth "author" "vcard")
  if out = ∅ then none else some out

def og_article_authors (doc : Doc) : Option (Finset String) :=
  first_attr_all doc (selHeadMetaProp "article:author") "content"

def twitter_creator (doc : Doc) : Option (Finset String) :=
  (first_attr_all doc (selHeadMetaName "twitter:creator") "content").map
    (fun s => s.image trim_at)

def dublin_core_creators (doc : Doc) : Option (Finset String) :=
  let out := (docSelect doc selHeadMeta).foldl
    (fun acc m =>
      match getAttr m.attrs "name" with
      | some name =>
        let lname := asciiLower name
        if lname == "dc.creator" || lname == "dcterms.creator" then
          match getAttr m.attrs "content" with
          | some v =>
            let s := collapse_ws v
            if s ≠ "" then insert s acc else acc
          | none => acc
        else acc
      | none => acc)
    ∅
  if out = ∅ then none else some out

def address_authors (doc : Doc) : Option (Finset String) :=
  let s1 := textSetOf (docSelect doc (selTagDesc "article" "address"))
  if s1 ≠ ∅ then some s1
  else
    let s2 := textSetOf (docSelect doc (selTagDesc "footer" "address"))
    if s2 ≠ ∅ then some s2
    else
      let s3 := textSetOf (docSelect doc (selTag "address"))
      if s3 ≠ ∅ then some s3 else none

/-- The authors fallback chain of `Entry::new` (entry.rs lines 92-102). -/
def authorsResolve (ctx : Ctx) (doc : Doc) : Finset String :=
  ((meta_author doc).or
    ((link_rel_author doc).or
      ((json_ld_authors ctx doc).or
        ((microdata_authors doc).or
          ((rdfa_authors doc).or
            ((microformats_authors doc).or
              ((og_article_authors doc).or
                ((twitter_creator doc).or
                  ((dublin_core_creators doc).or (address_authors doc)))))))))).getD ∅

/-! ## Description strategies (entry.rs lines 660-754) -/

def meta_description (doc : Doc) : Option String :=
  (docSelect doc selHeadMeta).findSome? (fun e =>
    match getAttr e.attrs "name" with
    | some name =>
      if asciiLower name == "description" then
        match getAttr e.attrs "content" with
        | some v =>
          let s := collapse_ws v
          if s ≠ "" then some s else none
        | none => none
      else none
    | none => none)

def og_description (doc : Doc) : Option String :=
  first_attr doc (selHeadMetaProp "og:description") "content"

def twitter_description (doc : Doc) : Option String :=
  first_attr doc (selHeadMetaName "twitter:description") "content"

def schema_description_jsonld (ctx : Ctx) (doc : Doc) : Option String :=
  ((((ldJsonValues ctx doc).map collect_schema_descriptions).flatten).map collapse_ws).find?
    (fun s => s ≠ "")

def schema_description_microdata_rdfa (doc : Doc) : Option String :=
  (first_attr doc (selAttrEq "itemprop" "description") "content").or
    ((first_text doc (selAttrEq "itemprop" "description")).or
      ((first_attr doc (selAttrEq "itemprop" "abstract") "content").or
        ((first_text doc (selAttrEq "itemprop" "abstract")).or
          ((first_attr doc (selAttrEq "property" "schema:description") "content").or
            (first_text doc (selAttrEq "property" "schema:description"))))))

def microformats_summary (doc : Doc) : Option String :=
  (first_text doc (selClass2 "h-entry" "p-summary")).or (first_text doc (selClass "p-summary"))

def dublin_core_description (doc : Doc) : Option String :=
  (docSelect doc selHeadMeta).findSome? (fun e =>
    match getAttr e.attrs "name" with
    | some name =>
      let lname := asciiLower name
      if lname == "dc.description" || lname == "dcterms.description" ||
          lname == "dcterms.abstract" then
        match getAttr e.attrs "content" with
        | some v =>
          let s := collapse_ws v
          if s ≠ "" then some s else none
        | none => none
      else none
    | none => none)

def manifest_description (ctx : Ctx) (doc : Doc) : Option String :=
  match ((docSelect doc (selLinkRelWord "manifest")).filterMap
      (fun l => getAttr l.attrs "href")).head? with
  | none => none
  | some href =>
    match ctx.joinBase href with
    | none => none
    | some manifestUrl =>
      match ctx.net manifestUrl with
      | none => none
      | some text =>
        match ctx.parseJson text with
        | none => none
        | some v =>
          match (v.get "description").bind Json.asStr with
          | some d =>
            let s := collapse_ws d
            if s ≠ "" then some s else none
          | none => none

/-- The description fallback chain of `Entry::new` (entry.rs lines 103-110). -/
def descriptionResolve (ctx : Ctx) (doc : Doc) : Option String :=
  (meta_description doc).or
    ((og_description doc).or
      ((twitter_description doc).or
        ((schema_description_jsonld ctx doc).or
          ((schema_description_microdata_rdfa doc).or
            ((microformats_summary doc).or
              ((dublin_core_description doc).or (manifest_description ctx doc)))))))

/-! ## URL absolutizer and thumbnail strategies (entry.rs lines 783-1063) -/

/-- `absolutise` (entry.rs lines 1049-1063). -/
def absolutise (ctx : Ctx) (candidate : String) : Option String :=
  let c := rustTrimS candidate
  if strStartsWith c "data:" || strStartsWith c "#" then none
  else
    match ctx.parseUrl c with
    | some (scheme, ser) =>
      if scheme == "http" || scheme == "https" then some ser else none
    | none => ctx.joinBase c

def og_image (ctx : Ctx) (doc : Doc) : Option String :=
  [selHeadMetaProp "og:image:secure_url", selHeadMetaProp "og:image:url",
    selHeadMetaProp "og:image"].findSome?
    (fun sel =>
      match first_attr doc sel "content" with
      | some u => absolutise ctx u
      | none => none)

def twitter_image (ctx : Ctx) (doc : Doc) : Option String :=
  [selHeadMetaName "twitter:image", selHeadMetaName "twitter:image:src"].findSome?
    (fun sel =>
      match first_attr doc sel "content" with
      | some u => absolutise ctx u
      | none => none)

def schema_primary_image_jsonld (ctx : Ctx) (doc : Doc) : Option String :=
  ((((ldJsonValues ctx doc).map collect_primary_image).flatten).filterMap
    (fun u => absolutise ctx u)).head?

def schema_image_jsonld (ctx : Ctx) (doc : Doc) : Option String :=
  (((ldJsonValues ctx doc).foldl (fun acc v => collect_generic_image v acc) []).filterMap
    (fun u => absolutise ctx u)).head?

def url_from_any_attr (doc : Doc) (sel : Sel) : Option String :=
  (docSelect doc sel).findSome? (fun e =>
    ["content", "src", "href", "data-src"].findSome? (fun a =>
      match getAttr e.attrs a with
      | some v =>
        let t := rustTrimS v
        if t ≠ "" then some t else none
      | none => none))

def schema_primary_image_microdata_rdfa (ctx : Ctx) (doc : Doc) : Option String :=
  [selAttrEq "itemprop" "primaryImageOfPage",
    selAttrEq "property" "schema:primaryImageOfPage"].findSome?
    (fun sel => (url_from_any_attr doc sel).bind (fun u => absolutise ctx u))

def schema_image_microdata_rdfa (ctx : Ctx) (doc : Doc) : Option String :=
  [selAttrEq "itemprop" "image", selAttrEq "property" "schema:image"].findSome?
    (fun sel => (url_from_any_attr doc sel).bind (fun u => absolutise ctx u))

def microformats_image (ctx : Ctx) (doc : Doc) : Option String :=
  [selClass2 "h-entry" "u-featured", selClass "u-featured",
    selClass2 "h-entry" "u-photo", selClass "u-photo"].findSome?
    (fun sel => (url_from_any_attr doc sel).bind (fun u => absolutise ctx u))

/-- The `find_map` over `<link rel~=alternate>` in `oembed_thumbnail`
(entry.rs lines 884-893): the first link typed `application/json+oembed`
or `text/xml+oembed` (after ASCII lowercasing) yields its `href`. -/
def oembedHref (doc : Doc) : Option String :=
  (docSelect doc (selLinkRelWord "alternate")).findSome? (fun l =>
    match getAttr l.attrs "type" with
    | some ty =>
      let t := asciiLower ty
      if t == "application/json+oembed" || t == "text/xml+oembed" then getAttr l.attrs "href"
      else none
    | none => none)

/-- The URL the oEmbed strategy fetches (entry.rs lines 895-902): the
discovered href joined against the base, whatever the advertised type was. -/
def oembedRequestUrl (ctx : Ctx) (doc : Doc) : Option String :=
  (oembedHref doc).bind ctx.joinBase

/-- `oembed_thumbnail` (entry.rs lines 883-916). -/
def oembed_thumbnail (ctx : Ctx) (doc : Doc) : Option String :=
  match oembedHref doc with
  | none => none
  | some href =>
    match ctx.joinBase href with
    | none => none
    | some oembedUrl =>
      match ctx.net oembedUrl with
      | none => none
      | some body =>
        if strContainsSub href "json+oembed" then
          match ctx.parseJson body with
          | some v =>
            (match ((v.get "thumbnail_url").bind Json.asStr).or
                ((v.get "url").bind Json.asStr) with
             | some u => absolutise ctx u
             | none => none)
          | none => none
        else none

def amp_story_poster (ctx : Ctx) (doc : Doc) : Option String :=
  match (docSelect doc (selTag "amp-story")).head? with
  | none => none
  | some el =>
    ["poster-portrait-src", "poster-landscape-src", "poster-square-src"].findSome?
      (fun a => (getAttr el.attrs a).bind (fun u => absolutise ctx u))

def rel_image_src (ctx : Ctx) (doc : Doc) : Option String :=
  (((docSelect doc (selLinkRelEq "image_src")).filterMap
      (fun l => getAttr l.attrs "href")).filterMap (fun u => absolutise ctx u)).head?

/-- The thumbnail fallback chain of `Entry::new` (entry.rs lines 111-120),
before the final `Url::parse`. -/
def thumbnailResolve (ctx : Ctx) (doc : Doc) : Option String :=
  (og_image ctx doc).or
    ((twitter_image ctx doc).or
      ((schema_primary_image_jsonld ctx doc).or
        ((schema_primary_image_microdata_rdfa ctx doc).or
          ((schema_image_jsonld ctx doc).or
            ((schema_image_microdata_rdfa ctx doc).or
              ((microformats_image ctx doc).or
                ((oembed_thumbnail ctx doc).or
                  ((amp_story_poster ctx doc).or (rel_image_src ctx doc)))))))))

/-! ## Entry assembly (entry.rs lines 13-135) -/

structure Entry where
  id : String
  url : String
  page_title : String
  site_title : String
  authors : Finset String
  full_text : String
  description : Option String
  thumbnail : Option String

inductive EntryError where
  | fetchError (url : String)
  | readToStringError (url : String)
deriving DecidableEq, Repr

/-- Outcome of the primary-page fetch: the call itself can fail, reading the
body as text can fail, or a body is produced. -/
inductive Fetched where
  | fetchFail
  | readFail
  | ok (body : String)

/-- The infallible part of `Entry::new`: everything after a body has been
obtained (entry.rs lines 52-133). -/
def entryFromBody (ctx : Ctx) (body : String) (pageTitle : Option String) : Entry :=
  let doc := ctx.parseHtml body
  let full_text := (ctx.readability body).getD ""
  let page_title := (pageTitle.or (pageTitleResolve ctx doc)).getD ""
  let site_title := siteTitleResolve ctx doc
  let authors := authorsResolve ctx doc
  let description := descriptionResolve ctx doc
  let thumbnail := (thumbnailResolve ctx doc).bind (fun s => (ctx.parseUrl s).map (·.2))
  { id := ctx.freshId, url := ctx.baseUrl, page_title, site_title, authors,
    full_text, description, thumbnail }

/-- `Entry::new` (entry.rs lines 38-134): only the primary fetch and the
body read can fail; everything downstream is total. -/
def EntryNew (ctx : Ctx) (fetched : Fetched) (pageTitle : Option String) :
    Except EntryError Entry :=
  match fetched with
  | .fetchFail => .error (.fetchError ctx.baseUrl)
  | .readFail => .error (.readToStringError ctx.baseUrl)
  | .ok body => .ok (entryFromBody ctx body pageTitle)

/-! ## Serialized view (entry.rs lines 1072-1119) -/

structure EntryView where
  title : String
  site : String
  author : Option String
  authors : List String
  url : String
  id : String
  description : Option String
  thumbnail : Option String
  full_text : String

/-- `EntryView::from` (entry.rs lines 1099-1119): sort the author set for
determinism, primary author is the first (least) element. -/
def EntryView.fromEntry (e : Entry) : EntryView :=
  let sorted := e.authors.sort (· ≤ ·)
  { title := e.page_title, site := e.site_title, author := sorted.head?,
    authors := sorted, url := e.url, id := e.id, description := e.description,
    thumbnail := e.thumbnail, full_text := e.full_text }

/-- The serde field list of `EntryView` (entry.rs lines 1072-1097): `author`
is skipped when `None`, `authors` when empty, `description`/`thumbnail`
when `None`. -/
def serializeView (v : EntryView) : List (String × Json) :=
  [("title", .str v.title), ("site", .str v.site)] ++
    (match v.author with
     | some a => [("author", .str a)]
     | none => []) ++
    (if v.authors.isEmpty then [] else [("authors", .arr (v.authors.map .str))]) ++
    [("url", .str v.url), ("id", .str v.id)] ++
    (match v.description with
     | some d => [("description", .str d)]
     | none => []) ++
    (match v.thumbnail with
     | some t => [("thumbnail", .str t)]
     | none => []) ++
    [("full_text", .str v.full_text)]

/-! ## Concrete documents and collaborator contexts used by witnesses -/

/-- A concrete collaborator context whose URL functions agree with the
`url` crate on the handful of inputs used in witnesses. -/
def ctxMini : Ctx where
  baseUrl := "https://example.com/dir/page"
  host := some "example.com"
  joinBase := fun s => if s = "/y" then some "https://example.com/y" else none
  parseUrl := fun s =>
    if s = "https://x/y" then some ("https", "https://x/y")
    else if s = "ftp://x/y" then some ("ftp", "ftp://x/y")
    else none
  net := fun _ => none
  parseJson := fun _ => none
  parseHtml := fun _ => []
  readability := fun _ => none
  freshId := "0"

/-- A document whose head carries `og:site_name "A"` and a JSON-LD block
declaring `WebSite.name = "B"`. -/
def docSiteW : Doc :=
  [.elem "html" [] [.elem "head" []
    [.elem "meta" [("property", "og:site_name"), ("content", "A")] [],
     .elem "script" [("type", "application/ld+json")] [.text "J"]],
    .elem "body" [] []]]

def ctxSiteW : Ctx :=
  { ctxMini with parseJson := fun s =>
      if s = "J" then some (.obj [("@type", .str "WebSite"), ("name", .str "B")]) else none }

/-- A document with no site metadata at all. -/
def docBareW : Doc := [.elem "html" [] [.elem "head" [] [], .elem "body" [] []]]

/-- A page whose head links a web-app manifest. -/
def docManifestW : Doc :=
  [.elem "html" [] [.elem "head" []
    [.elem "link" [("rel", "manifest"), ("href", "/m.json")] []],
    .elem "body" [] []]]

/-- Collaborators for `docManifestW`: the manifest fetch succeeds and its
`name` is the two-space string `"  "`; readability yields `"a  b"`. -/
def ctxManifestW : Ctx :=
  { ctxMini with
    joinBase := fun s => some ("https://example.com" ++ s)
    net := fun u => if u = "https://example.com/m.json" then some "MBODY" else none
    parseJson := fun s => if s = "MBODY" then some (.obj [("name", .str "  ")]) else none
    parseHtml := fun _ => docManifestW
    readability := fun _ => some "a  b" }

/-- A document whose only author metadata is
`<meta name="twitter:creator" content="@jdoe">`. -/
def docTwW : Doc :=
  [.elem "html" [] [.elem "head" []
    [.elem "meta" [("name", "twitter:creator"), ("content", "@jdoe")] []],
    .elem "body" [] []]]

/-- The first generic-image candidate object: `{"image": u1}`. -/
def imgPlainObj (u1 : String) : Json := .obj [("image", .str u1)]

/-- The second candidate: an image object carrying
`representativeOfPage: true`. -/
def imgRepObj (u2 : String) : Json :=
  .obj [("image", .obj [("representativeOfPage", .bool true), ("url", .str u2)])]

/-- The document and collaborators of the C6 witness: one JSON-LD block
holding the two image candidates. -/
def docImgW : Doc :=
  [.elem "html" [] [.elem "head" []
    [.elem "script" [("type", "application/ld+json")] [.text "I"]],
    .elem "body" [] []]]

def ctxImgW : Ctx :=
  { ctxMini with
    parseJson := fun s =>
      if s = "I" then
        some (.arr [imgPlainObj "https://e/1.png", imgRepObj "https://e/2.png"])
      else none
    parseUrl := fun s =>
      if s = "https://e/1.png" then some ("https", "https://e/1.png")
      else if s = "https://e/2.png" then some ("https", "https://e/2.png")
      else none }

/-- A page advertising a single oEmbed endpoint, typed `text/xml+oembed`. -/
def docOemXmlW : Doc :=
  [.elem "html" [] [.elem "head" []
    [.elem "link" [("rel", "alternate"), ("type", "text/xml+oembed"), ("href", "/oe")] []],
    .elem "body" [] []]]

def ctxOemW : Ctx :=
  { ctxMini with
    joinBase := fun s => some ("https://example.com" ++ s)
    net := fun u => if u = "https://example.com/oe" then some "OBODY" else none
    parseJson := fun s =>
      if s = "OBODY" then some (.obj [("thumbnail_url", .str "https://e/t.png")]) else none
    parseUrl := fun s =>
      if s = "https://e/t.png" then some ("https", "https://e/t.png") else none }

/-- A page advertising a JSON oEmbed endpoint whose href contains
`json+oembed`, so the body is parsed and its `thumbnail_url` used. -/
def docOemJsonW : Doc :=
  [.elem "html" [] [.elem "head" []
    [.elem "link" [("rel", "alternate"), ("type", "application/json+oembed"),
      ("href", "/json+oembed/oe")] []],
    .elem "body" [] []]]

def ctxOemJsonW : Ctx :=
  { ctxOemW with
    net := fun u => if u = "https://example.com/json+oembed/oe" then some "OBODY" else none }

/-! ### Normalization facts -/

theorem collapseGo_head_true {cs : List Char} {c : Char}
    (h : (collapseGo cs true).head? = some c) : rustIsWhitespace c = false := by
  induction cs with
  | nil => simp [collapseGo] at h
  | cons d ds ih =>
    by_cases hw : rustIsWhitespace d
    · simp [collapseGo, hw] at h
      exact ih h
    · simp [collapseGo, hw] at h
      simp [← h, hw]

theorem collapseGo_ws_is_space {cs : List Char} {b : Bool} {c : Char}
    (hc : c ∈ collapseGo cs b) (hw : rustIsWhitespace c = true) : c = ' ' := by
  induction cs generalizing b with
  | nil => simp [collapseGo] at hc
  | cons d ds ih =>
    by_cases hd : rustIsWhitespace d
    · cases b with
      | true =>
        simp [collapseGo, hd] at hc
        exact ih hc
      | false =>
        simp [collapseGo, hd] at hc
        rcases hc with h | h
        · exact h
        · exact ih h
    · simp [collapseGo, hd] at hc
      rcases hc with h | h
      · subst h; simp [hd] at hw
      · exact ih h

theorem collapseGo_noAdjWs (cs : List Char) (b : Bool) : NoAdjWs (collapseGo cs b) := by
  induction cs generalizing b with
  | nil => simp [collapseGo, NoAdjWs]
  | cons d ds ih =>
    by_cases hd : rustIsWhitespace d
    · cases b with
      | true => simpa [collapseGo, hd] using ih true
      | false =>
        simp only [collapseGo, hd, if_true, if_false, Bool.false_eq_true]
        refine List.chain'_cons'.mpr ⟨?_, ih true⟩
        intro y hy
        exact Or.inr (collapseGo_head_true hy)
    · simp only [collapseGo, hd, Bool.false_eq_true, if_false]
      refine List.chain'_cons'.mpr ⟨?_, ih false⟩
      intro y _
      exact Or.inl (by simp [hd])

theorem trimChars_sublist (l : List Char) : (trimChars l).Sublist l :=
  (( List.rdropWhile_prefix _ _).sublist).trans (List.dropWhile_suffix _).sublist

theorem trimChars_noAdjWs {l : List Char} (h : NoAdjWs l) : NoAdjWs (trimChars l) :=
  List.Chain'.prefix (h.suffix (List.dropWhile_suffix _)) ( List.rdropWhile_prefix _ _)

theorem trimChars_head {l : List Char} {c : Char}
    (h : (trimChars l).head? = some c) : rustIsWhitespace c = false := by
  have hpre := List.rdropWhile_prefix rustIsWhitespace (l.dropWhile rustIsWhitespace)
  obtain ⟨t, ht⟩ := hpre
  unfold trimChars at h
  cases hcase : (l.dropWhile rustIsWhitespace).rdropWhile rustIsWhitespace with
  | nil => simp [hcase] at h
  | cons x xs =>
    rw [hcase] at h ht
    simp only [List.head?_cons, Option.some.injEq] at h
    have hne : l.dropWhile rustIsWhitespace ≠ [] := by
      intro hnil
      rw [hnil] at ht
      simp at ht
    have hz := List.head_dropWhile_not rustIsWhitespace l hne
    have hh2 : (l.dropWhile rustIsWhitespace).head? = some x := by
      rw [← ht]
      rfl
    rw [List.head?_eq_head hne] at hh2
    rw [Option.some.inj hh2] at hz
    rw [← h]
    simpa using hz

theorem trimChars_last {l : List Char} {c : Char}
    (h : (trimChars l).getLast? = some c) : rustIsWhitespace c = false := by
  unfold trimChars at h
  have hne : (l.dropWhile rustIsWhitespace).rdropWhile rustIsWhitespace ≠ [] := by
    intro hnil
    rw [hnil] at h
    simp at h
  have hlast := List.rdropWhile_last_not rustIsWhitespace _ hne
  rw [List.getLast?_eq_getLast _ hne] at h
  simp only [Option.some.injEq] at h
  rw [h] at hlast
  simpa using hlast

/-- The four normalization facts about every `collapse_ws` output: no two
adjacent whitespace characters, non-whitespace first and last characters,
and every whitespace character is an ASCII space. -/
theorem collapse_ws_clean (s : String) :
    NoAdjWs (collapse_ws s).data ∧
      (∀ c, (collapse_ws s).data.head? = some c → rustIsWhitespace c = false) ∧
      (∀ c, (collapse_ws s).data.getLast? = some c → rustIsWhitespace c = false) ∧
      (∀ c ∈ (collapse_ws s).data, rustIsWhitespace c = true → c = ' ') := by
  refine ⟨trimChars_noAdjWs (collapseGo_noAdjWs s.data false),
    fun c hc => trimChars_head hc, fun c hc => trimChars_last hc, fun c hc hw => ?_⟩
  exact collapseGo_ws_is_space ((trimChars_sublist _).mem hc) hw

/-! Idempotence of `collapse_ws`. -/

theorem collapseGo_eq_self {l : List Char} (h1 : NoAdjWs l)
    (h2 : ∀ c ∈ l, rustIsWhitespace c = true → c = ' ') : collapseGo l false = l := by
  induction l with
  | nil => rfl
  | cons c cs ih =>
    have hchain := List.chain'_cons'.mp h1
    have ihcs : collapseGo cs false = cs :=
      ih hchain.2 (fun d hd hw => h2 d (List.mem_cons_of_mem _ hd) hw)
    by_cases hw : rustIsWhitespace c
    · have hc : c = ' ' := h2 c (List.mem_cons_self _ _) hw
      have htrue : collapseGo cs true = cs := by
        cases cs with
        | nil => rfl
        | cons d ds =>
          have hd : rustIsWhitespace d = false := by
            rcases hchain.1 d (by simp) with h | h
            · rw [h] at hw; cases hw
            · exact h
          simp only [collapseGo, hd, Bool.false_eq_true, if_false]
          simpa [collapseGo, hd] using ihcs
      show (if rustIsWhitespace c then
          if false then collapseGo cs true else ' ' :: collapseGo cs true
        else c :: collapseGo cs false) = c :: cs
      rw [if_pos hw]
      simp only [if_false, Bool.false_eq_true]
      rw [htrue, hc]
    · show (if rustIsWhitespace c then
          if false then collapseGo cs true else ' ' :: collapseGo cs true
        else c :: collapseGo cs false) = c :: cs
      rw [if_neg (by simp [hw]), ihcs]

theorem trimChars_eq_self {l : List Char}
    (hh : ∀ c, l.head? = some c → rustIsWhitespace c = false)
    (hl : ∀ c, l.getLast? = some c → rustIsWhitespace c = false) : trimChars l = l := by
  unfold trimChars
  have hdrop : l.dropWhile rustIsWhitespace = l := by
    cases l with
    | nil => rfl
    | cons x xs =>
      rw [List.dropWhile_cons_of_neg]
      simp [hh x rfl]
  rw [hdrop]
  rw [List.rdropWhile_eq_self_iff]
  intro hne
  have := hl (l.getLast hne) (by rw [List.getLast?_eq_getLast _ hne])
  simp [this]

theorem collapse_ws_idem (s : String) : collapse_ws (collapse_ws s) = collapse_ws s := by
  obtain ⟨h1, h2, h3, h4⟩ := collapse_ws_clean s
  show String.mk (trimChars (collapseGo (collapse_ws s).data false)) = collapse_ws s
  rw [collapseGo_eq_self h1 h4, trimChars_eq_self h2 h3]

/-! ## Generic helper lemmas -/

theorem attachFoldl {α β : Type _} (l : List α) (f : α → β → β) (init : β) :
    l.attach.foldl (fun acc x => f x.1 acc) init = l.foldl (fun acc x => f x acc) init := by
  induction l generalizing init with
  | nil => rfl
  | cons a as ih =>
    rw [List.attach_cons]
    simp only [List.foldl_cons, List.foldl_map]
    exact ih (f a init)

theorem attachMapFlatten {α β : Type _} (l : List α) (f : α → List β) :
    (l.attach.map (fun x => f x.1)).flatten = (l.map f).flatten := by
  rw [List.attach_map_val l f]

theorem first_attr_normalized {doc : Doc} {sel : Sel} {a s : String}
    (h : first_attr doc sel a = some s) : IsNormalized s ∧ s ≠ "" := by
  unfold first_attr at h
  have hp := List.find?_some h
  have hm := List.mem_of_find?_eq_some h
  rw [List.mem_map] at hm
  obtain ⟨v, _, hv⟩ := hm
  refine ⟨?_, by simpa using hp⟩
  rw [← hv]
  exact collapse_ws_idem v

theorem first_text_normalized {doc : Doc} {sel : Sel} {s : String}
    (h : first_text doc sel = some s) : IsNormalized s ∧ s ≠ "" := by
  unfold first_text at h
  cases hh : (docSelect doc sel).head? with
  | none => rw [hh] at h; cases h
  | some e =>
    rw [hh] at h
    simp only at h
    by_cases hne : collapse_ws (elemText e) ≠ ""
    · rw [if_pos hne] at h
      cases h
      exact ⟨collapse_ws_idem _, hne⟩
    · rw [if_neg hne] at h
      cases h

theorem option_or_normalized {a b : Option String}
    (ha : ∀ s, a = some s → IsNormalized s ∧ s ≠ "")
    (hb : ∀ s, b = some s → IsNormalized s ∧ s ≠ "") :
    ∀ s, a.or b = some s → IsNormalized s ∧ s ≠ "" := by
  intro s h
  cases a with
  | none => rw [Option.none_or] at h; exact hb s h
  | some x => rw [Option.or_some] at h; exact ha s h

theorem find_collapse_normalized {l : List String} {s : String}
    (h : (l.map collapse_ws).find? (fun s => s ≠ "") = some s) :
    IsNormalized s ∧ s ≠ "" := by
  have hp := List.find?_some h
  have hm := List.mem_of_find?_eq_some h
  rw [List.mem_map] at hm
  obtain ⟨v, _, hv⟩ := hm
  refine ⟨?_, by simpa using hp⟩
  rw [← hv]
  exact collapse_ws_idem v

/-! ## C9 — `normalize` output shape -/

/-- C9: for every input string, `collapse_ws` output has no two adjacent
whitespace characters, starts and ends with non-whitespace, and every
whitespace character in it is an ASCII space (each maximal whitespace run
was replaced by one space and the ends were trimmed). -/
theorem claim_normalize_output_clean (s : String) :
    NoAdjWs (collapse_ws s).data ∧
      (∀ c, (collapse_ws s).data.head? = some c → rustIsWhitespace c = false) ∧
      (∀ c, (collapse_ws s).data.getLast? = some c → rustIsWhitespace c = false) ∧
      (∀ c ∈ (collapse_ws s).data, rustIsWhitespace c = true → c = ' ') :=
  collapse_ws_clean s

/-- Witness for C9 at the concrete input `" a \t\nb  c "`. -/
theorem claim_normalize_output_clean_witness :
    rustIsWhitespace 'a' = false ∧ rustIsWhitespace 'c' = false :=
  ⟨(claim_normalize_output_clean " a \t\nb  c ").2.1 'a' (by decide),
    (claim_normalize_output_clean " a \t\nb  c ").2.2.1 'c' (by decide)⟩

/-! ## C3 — `absolutise` -/

/-- C3: `absolutise` trims the candidate and rejects `data:`/`#` prefixes;
an absolute parse with scheme `http`/`https` is accepted and returned as
the parsed URL's serialization (unchanged whenever that serialization is
the trimmed candidate itself); an absolute parse with another scheme is
rejected; otherwise the candidate is joined against the base, failing
exactly when the join fails. -/
theorem claim_absolutise_spec (ctx : Ctx) (candidate : String) :
    (strStartsWith (rustTrimS candidate) "data:" = true → absolutise ctx candidate = none) ∧
      (strStartsWith (rustTrimS candidate) "#" = true → absolutise ctx candidate = none) ∧
      (∀ sch ser, strStartsWith (rustTrimS candidate) "data:" = false →
        strStartsWith (rustTrimS candidate) "#" = false →
        ctx.parseUrl (rustTrimS candidate) = some (sch, ser) →
        (sch = "http" ∨ sch = "https") → absolutise ctx candidate = some ser) ∧
      (∀ sch ser, ctx.parseUrl (rustTrimS candidate) = some (sch, ser) →
        sch ≠ "http" → sch ≠ "https" → absolutise ctx candidate = none) ∧
      (strStartsWith (rustTrimS candidate) "data:" = false →
        strStartsWith (rustTrimS candidate) "#" = false →
        ctx.parseUrl (rustTrimS candidate) = none →
        absolutise ctx candidate = ctx.joinBase (rustTrimS candidate)) := by
  unfold absolutise
  refine ⟨fun h => by simp [h], fun h => by simp [h], ?_, ?_, ?_⟩
  · intro sch ser hd hh hp hs
    simp only [hd, hh, Bool.or_self, Bool.false_eq_true, if_false, hp]
    rcases hs with h | h <;> simp [h]
  · intro sch ser hp h1 h2
    by_cases hd : strStartsWith (rustTrimS candidate) "data:" ||
        strStartsWith (rustTrimS candidate) "#"
    · simp [hd]
    · simp only [hd, Bool.false_eq_true, if_false, hp]
      simp [h1, h2]
  · intro hd hh hp
    simp [hd, hh, hp]



/-- Witness for C3: rejection of `data:` and `#`, acceptance of an absolute
https URL unchanged, rejection of a foreign scheme, joining of a relative
path. -/
theorem claim_absolutise_spec_witness :
    absolutise ctxMini "data:image/png;base64,AA" = none ∧
      absolutise ctxMini "#frag" = none ∧
      absolutise ctxMini " https://x/y " = some "https://x/y" ∧
      absolutise ctxMini "ftp://x/y" = none ∧
      absolutise ctxMini "/y" = some "https://example.com/y" :=
  ⟨(claim_absolutise_spec ctxMini "data:image/png;base64,AA").1 (by decide),
    (claim_absolutise_spec ctxMini "#frag").2.1 (by decide),
    (claim_absolutise_spec ctxMini " https://x/y ").2.2.1 "https" "https://x/y"
      (by decide) (by decide) (by decide) (Or.inr rfl),
    (claim_absolutise_spec ctxMini "ftp://x/y").2.2.2.1 "ftp" "ftp://x/y"
      (by decide) (by decide) (by decide),
    (claim_absolutise_spec ctxMini "/y").2.2.2.2 (by decide) (by decide) (by decide)⟩

/-! ## C10 — `@type` gates: WebSite (string substring) vs WebPage
(string equality or array membership) -/

theorem collect_site_names_str (s : String) : collect_schema_site_names (.str s) = [] := by
  rw [collect_schema_site_names]
  · exact fun m h => Json.noConfusion h
  · exact fun a h => Json.noConfusion h

theorem collect_site_names_arr (a : List Json) :
    collect_schema_site_names (.arr a) = (a.map collect_schema_site_names).flatten := by
  rw [collect_schema_site_names]
  rw [attachMapFlatten a collect_schema_site_names]

theorem collect_site_names_str_list (l : List String) :
    ((l.map Json.str).map collect_schema_site_names).flatten = [] := by
  induction l with
  | nil => rfl
  | cons x xs ih => simp [collect_site_names_str, ih]

/-- C10: the JSON-LD site-name walk collects an object's `name` through the
WebSite gate only when `@type` is a JSON string containing `"WebSite"`; an
array `@type` (even one listing `"WebSite"`) collects nothing through that
gate, while the `is_type` WebPage gate used by `primaryImageOfPage` accepts
both an equal string and an array containing the type. -/
theorem claim_website_gate_string_only (t n : String) (ts : List String) :
    collect_schema_site_names (.obj [("@type", .str t), ("name", .str n)]) =
      (if strContainsSub t "WebSite" = true ∧ rustTrimS n ≠ "" then [rustTrimS n] else []) ∧
      collect_schema_site_names (.obj [("@type", .arr (ts.map .str)), ("name", .str n)]) = [] ∧
      (∀ s : String, is_type [("@type", .str s)] "WebPage" = (s == "WebPage")) ∧
      is_type [("@type", .arr (ts.map .str))] "WebPage" = ts.any (fun s => s == "WebPage") := by
  refine ⟨?_, ?_, ?_, ?_⟩
  · rw [collect_schema_site_names]
    rw [attachMapFlatten [("@type", Json.str t), ("name", Json.str n)]
      (fun p => collect_schema_site_names p.2)]
    by_cases hc : strContainsSub t "WebSite"
    · by_cases hn : rustTrimS n ≠ ""
      · simp [jget, List.find?, hc, hn, collect_site_names_str]
      · simp [jget, List.find?, hc, hn, collect_site_names_str]
    · simp [jget, List.find?, hc, collect_site_names_str]
  · rw [collect_schema_site_names]
    rw [attachMapFlatten [("@type", Json.arr (ts.map .str)), ("name", Json.str n)]
      (fun p => collect_schema_site_names p.2)]
    simp [jget, List.find?, collect_site_names_str, collect_site_names_arr,
      collect_site_names_str_list]
  · intro s
    rfl
  · show is_type [("@type", .arr (ts.map .str))] "WebPage" = ts.any (fun s => s == "WebPage")
    unfold is_type
    simp only [jget, List.find?]
    norm_num
    induction ts with
    | nil => rfl
    | cons x xs ih =>
      simp only [List.map, List.any_cons, ih]
      simp [Json.asStr]

/-! ## C1 — site-name resolution order -/

/-- C1: the site-name resolver tries `og:site_name`, manifest, JSON-LD /
Microdata / RDFa, microformats2, `application-name`, then the page URL's
host, returning the first success: an `og:site_name` success is the result
whatever the later strategies would say, and when the five strategies all
fail the result is the host. -/
theorem claim_site_name_priority (ctx : Ctx) (doc : Doc) :
    (∀ A, og_site_name doc = some A → siteTitleResolve ctx doc = A) ∧
      (og_site_name doc = none → manifest_site_name ctx doc = none →
        schema_site_name ctx doc = none → microformats_site_name doc = none →
        meta_application_name doc = none →
        ∀ h, ctx.host = some h → siteTitleResolve ctx doc = h) := by
  constructor
  · intro A hA
    unfold siteTitleResolve
    rw [hA, Option.or_some]
    rfl
  · intro h1 h2 h3 h4 h5 h hh
    unfold siteTitleResolve
    rw [h1, h2, h3, h4, h5, hh]
    rfl



theorem schema_site_name_docSiteW : schema_site_name ctxSiteW docSiteW = some "B" := by
  have hv : ldJsonValues ctxSiteW docSiteW =
      [.obj [("@type", .str "WebSite"), ("name", .str "B")]] := rfl
  unfold schema_site_name
  rw [hv]
  rw [List.map_cons, List.map_nil]
  rw [collect_schema_site_names]
  rw [attachMapFlatten [("@type", Json.str "WebSite"), ("name", Json.str "B")]
    (fun p => collect_schema_site_names p.2)]
  simp [jget, List.find?, collect_site_names_str, strContainsSub, charsInfixOf,
    rustTrimS, trimChars, Json.get]
  rfl

/-- Witness for C1: on `docSiteW` the resolved site name is `"A"` even
though JSON-LD declares `"B"`; on a bare document it is the URL host. -/
theorem claim_site_name_priority_witness :
    siteTitleResolve ctxSiteW docSiteW = "A" ∧
      schema_site_name ctxSiteW docSiteW = some "B" ∧
      siteTitleResolve ctxMini docBareW = "example.com" :=
  ⟨(claim_site_name_priority ctxSiteW docSiteW).1 "A" rfl,
    schema_site_name_docSiteW,
    (claim_site_name_priority ctxMini docBareW).2 rfl rfl
      (by
        unfold schema_site_name
        rfl) rfl rfl "example.com" rfl⟩

/-! ## C2 — are all resolver successes normalized and non-empty? -/



/-- Counterexample to C2: the manifest site-name strategy succeeds with the
raw string `"  "`, which normalizes to the empty string — so a resolver
success is neither normalized nor non-empty, and it does not fall through;
likewise `full_text` is the readability output verbatim, not normalized. -/
theorem claim_resolver_normalization_cex :
    manifest_site_name ctxManifestW docManifestW = some "  " ∧
      collapse_ws "  " = "" ∧
      siteTitleResolve ctxManifestW docManifestW = "  " ∧
      ∃ e, EntryNew ctxManifestW (.ok "RAW") none = .ok e ∧
        e.full_text = "a  b" ∧ e.site_title = "  " ∧ collapse_ws e.full_text ≠ e.full_text :=
  ⟨rfl, rfl, rfl, ⟨entryFromBody ctxManifestW "RAW" none, rfl, rfl, rfl, by decide⟩⟩

/-- C2 as amended: every success of the HTML-document site-name strategies
(`og:site_name`, JSON-LD/Microdata/RDFa, microformats2, `application-name`)
is normalized and non-empty, but the manifest strategy returns the
manifest's `name`/`short_name` JSON string verbatim, with no normalization
and no emptiness check. -/
theorem claim_resolver_normalization_amended (ctx : Ctx) (doc : Doc) :
    (∀ s, og_site_name doc = some s → IsNormalized s ∧ s ≠ "") ∧
      (∀ s, schema_site_name ctx doc = some s → IsNormalized s ∧ s ≠ "") ∧
      (∀ s, microformats_site_name doc = some s → IsNormalized s ∧ s ≠ "") ∧
      (∀ s, meta_application_name doc = some s → IsNormalized s ∧ s ≠ "") ∧
      (∀ s, manifest_site_name ctx doc = some s →
        ∃ href mu body v,
          ((docSelect doc (selLinkRelWord "manifest")).filterMap
            (fun l => getAttr l.attrs "href")).head? = some href ∧
          ctx.joinBase href = some mu ∧ ctx.net mu = some body ∧
          ctx.parseJson body = some v ∧
          ((v.get "name").bind Json.asStr).or ((v.get "short_name").bind Json.asStr) =
            some s) := by
  refine ⟨fun s h => first_attr_normalized h, ?_, ?_, fun s h => first_attr_normalized h, ?_⟩
  · intro s h
    unfold schema_site_name at h
    cases hf : ((((ldJsonValues ctx doc).map collect_schema_site_names).flatten).map
        collapse_ws).find? (fun s => s ≠ "") with
    | some x =>
      rw [hf] at h
      cases h
      exact find_collapse_normalized hf
    | none =>
      rw [hf] at h
      revert h
      refine option_or_normalized (fun x hx => first_attr_normalized hx) ?_ s
      refine option_or_normalized (fun x hx => first_text_normalized hx) ?_
      refine option_or_normalized (fun x hx => first_attr_normalized hx) ?_
      refine option_or_normalized (fun x hx => first_text_normalized hx) ?_
      exact option_or_normalized (fun x hx => first_attr_normalized hx)
        (fun x hx => first_text_normalized hx)
  · intro s h
    unfold microformats_site_name at h
    revert h
    exact option_or_normalized (fun x hx => first_text_normalized hx)
      (fun x hx => first_text_normalized hx) s
  · intro s h
    unfold manifest_site_name at h
    cases h1 : ((docSelect doc (selLinkRelWord "manifest")).filterMap
        (fun l => getAttr l.attrs "href")).head? with
    | none => rw [h1] at h; cases h
    | some href =>
      rw [h1] at h
      dsimp only at h
      cases h2 : ctx.joinBase href with
      | none => rw [h2] at h; cases h
      | some mu =>
        rw [h2] at h
        dsimp only at h
        cases h3 : ctx.net mu with
        | none => rw [h3] at h; cases h
        | some body =>
          rw [h3] at h
          dsimp only at h
          cases h4 : ctx.parseJson body with
          | none => rw [h4] at h; cases h
          | some v =>
            rw [h4] at h
            dsimp only at h
            exact ⟨href, mu, body, v, rfl, h2, h3, h4, h⟩

/-- Witness for C2's amended statement: a normalized non-empty
`og:site_name` success, and the verbatim manifest clause instantiated at
the counterexample document. -/
theorem claim_resolver_normalization_amended_witness :
    (IsNormalized "A" ∧ "A" ≠ "") ∧
      ∃ href mu body v,
        ((docSelect docManifestW (selLinkRelWord "manifest")).filterMap
          (fun l => getAttr l.attrs "href")).head? = some href ∧
        ctxManifestW.joinBase href = some mu ∧ ctxManifestW.net mu = some body ∧
        ctxManifestW.parseJson body = some v ∧
        ((v.get "name").bind Json.asStr).or ((v.get "short_name").bind Json.asStr) =
          some "  " :=
  ⟨(claim_resolver_normalization_amended ctxSiteW docSiteW).1 "A" rfl,
    (claim_resolver_normalization_amended ctxManifestW docManifestW).2.2.2.2 "  " rfl⟩

/-! ## C4 — authors: accumulate within a strategy, stop at the first
non-empty strategy, strip `@` from `twitter:creator` -/

/-- C4: `meta_author` accumulates every non-empty normalized `content` of
every matching meta element; and when the seven earlier strategies fail and
the `twitter:creator` strategy collects exactly `{"@jdoe"}`, the resolved
author set is `{"jdoe"}` (leading `@` stripped), whatever the later
strategies would say. -/
theorem claim_authors_first_strategy (ctx : Ctx) (doc : Doc) :
    (∀ S, meta_author doc = some S →
        ∀ v ∈ (docSelect doc (selHeadMetaName "author")).filterMap
          (fun e => getAttr e.attrs "content"),
          collapse_ws v ≠ "" → collapse_ws v ∈ S) ∧
      (meta_author doc = none → link_rel_author doc = none →
        json_ld_authors ctx doc = none → microdata_authors doc = none →
        rdfa_authors doc = none → microformats_authors doc = none →
        og_article_authors doc = none →
        first_attr_all doc (selHeadMetaName "twitter:creator") "content" = some {"@jdoe"} →
        authorsResolve ctx doc = {"jdoe"}) := by
  constructor
  · intro S hS v hv hne
    unfold meta_author first_attr_all at hS
    by_cases hout : setOfNonEmpty ((docSelect doc (selHeadMetaName "author")).filterMap
        (fun e => getAttr e.attrs "content")) = ∅
    · simp only [hout, if_pos rfl] at hS
      simp at hS
    · rw [if_neg hout] at hS
      cases hS
      unfold setOfNonEmpty
      rw [List.mem_toFinset, List.mem_filter]
      constructor
      · rw [List.mem_map]
        exact ⟨v, hv, rfl⟩
      · simpa using hne
  · intro h1 h2 h3 h4 h5 h6 h7 htw
    unfold authorsResolve
    rw [h1, h2, h3, h4, h5, h6, h7]
    unfold twitter_creator
    rw [htw]
    simp only [Option.map_some', Option.none_or, Option.or_some, Option.getD_some]
    rw [Finset.image_singleton]
    decide


/-- Witness for C4 on `docTwW`: the resolved author set is exactly
`{"jdoe"}`. -/
theorem claim_authors_first_strategy_witness :
    authorsResolve ctxMini docTwW = {"jdoe"} ∧ collapse_ws " X" ∈ ({"X", "Y"} : Finset String) :=
  ⟨(claim_authors_first_strategy ctxMini docTwW).2 rfl rfl (by decide) (by decide) (by decide)
      (by decide) rfl (by decide),
    (claim_authors_first_strategy ctxMini
        [HNode.elem "html" [] [.elem "head" []
          [.elem "meta" [("name", "author"), ("content", " X")] [],
           .elem "meta" [("name", "author"), ("content", "Y")] []], .elem "body" [] []]]).1
      {"X", "Y"} (by decide) " X" (by decide) (by decide)⟩

/-! ## C5 — serialized primary author -/

theorem sort_head_least {s : Finset String} {a : String}
    (h : (s.sort (· ≤ ·)).head? = some a) : a ∈ s ∧ ∀ b ∈ s, a ≤ b := by
  cases hs : s.sort (· ≤ ·) with
  | nil => rw [hs] at h; cases h
  | cons x t =>
    rw [hs] at h
    simp only [List.head?_cons, Option.some.injEq] at h
    subst h
    have hsorted := Finset.sort_sorted (· ≤ ·) s
    rw [hs] at hsorted
    have hrel := List.rel_of_sorted_cons hsorted
    constructor
    · rw [← Finset.mem_sort (α := String) (· ≤ ·), hs]
      exact List.mem_cons_self _ _
    · intro b hb
      rw [← Finset.mem_sort (α := String) (· ≤ ·), hs] at hb
      rcases List.mem_cons.mp hb with hba | hbt
      · exact le_of_eq hba.symm
      · exact hrel b hbt

/-- C5: the serialized `authors` array never repeats a name (set semantics
after normalization); when the author set is non-empty the serialized
`author` field is its lexicographically smallest member, and when it is
empty both `author` and `authors` are absent from the record. -/
theorem claim_serialized_primary_author (e : Entry) :
    (EntryView.fromEntry e).authors.Nodup ∧
      (∀ a, (EntryView.fromEntry e).author = some a → a ∈ e.authors ∧ ∀ b ∈ e.authors, a ≤ b) ∧
      (e.authors = ∅ →
        jget (serializeView (EntryView.fromEntry e)) "author" = none ∧
          jget (serializeView (EntryView.fromEntry e)) "authors" = none) ∧
      (e.authors ≠ ∅ →
        ∃ a, jget (serializeView (EntryView.fromEntry e)) "author" = some (.str a) ∧
          a ∈ e.authors ∧ ∀ b ∈ e.authors, a ≤ b) := by
  refine ⟨Finset.sort_nodup _ _, fun a h => sort_head_least h, ?_, ?_⟩
  · intro hempty
    unfold serializeView EntryView.fromEntry
    rw [hempty, Finset.sort_empty]
    cases e.description <;> cases e.thumbnail <;> simp [jget, List.find?]
  · intro hne
    cases hs : e.authors.sort (· ≤ ·) with
    | nil =>
      exfalso
      have := Finset.length_sort (α := String) (· ≤ ·) (s := e.authors)
      rw [hs] at this
      exact hne (Finset.card_eq_zero.mp this.symm)
    | cons x t =>
      refine ⟨x, ?_, sort_head_least (s := e.authors) (by rw [hs]; rfl)⟩
      unfold serializeView EntryView.fromEntry
      rw [hs]
      simp only [List.head?_cons]
      cases e.description <;> cases e.thumbnail <;> simp [jget, List.find?]

/-- Witness for C5 at a concrete entry with authors `{"b", "a"}` and one
with no authors. -/
theorem claim_serialized_primary_author_witness :
    (∃ a, jget (serializeView (EntryView.fromEntry
        ⟨"i", "u", "t", "s", {"b", "a"}, "f", none, none⟩)) "author" = some (.str a) ∧
      a ∈ ({"b", "a"} : Finset String) ∧ ∀ b ∈ ({"b", "a"} : Finset String), a ≤ b) ∧
      jget (serializeView (EntryView.fromEntry
        ⟨"i", "u", "t", "s", ∅, "f", none, none⟩)) "authors" = none :=
  ⟨(claim_serialized_primary_author ⟨"i", "u", "t", "s", {"b", "a"}, "f", none, none⟩).2.2.2
      (by decide),
    ((claim_serialized_primary_author ⟨"i", "u", "t", "s", ∅, "f", none, none⟩).2.2.1 rfl).2⟩

/-! ## C6 — representativeOfPage front insertion -/

theorem piv_str (s : String) : push_image_value (.str s) = push_clean s := by
  rw [push_image_value]

theorem piv_obj (m : List (String × Json)) :
    push_image_value (.obj m) =
      (match (jget m "contentUrl").orElse (fun _ => jget m "url") with
       | some (.str u) => push_clean u
       | _ => []) := by
  rw [push_image_value]

theorem cgi_str (s : String) (out : List String) :
    collect_generic_image (.str s) out = out := by
  rw [collect_generic_image]
  · exact fun m h => Json.noConfusion h
  · exact fun a h => Json.noConfusion h

theorem cgi_bool (b : Bool) (out : List String) :
    collect_generic_image (.bool b) out = out := by
  rw [collect_generic_image]
  · exact fun m h => Json.noConfusion h
  · exact fun a h => Json.noConfusion h

theorem cgi_arr (a : List Json) (out : List String) :
    collect_generic_image (.arr a) out =
      a.foldl (fun acc x => collect_generic_image x acc) out := by
  rw [collect_generic_image]
  rw [attachFoldl a (fun x acc => collect_generic_image x acc) out]



theorem cgi_rep_inner (u2 : String) (out : List String) :
    collect_generic_image (.obj [("representativeOfPage", .bool true), ("url", .str u2)])
      out = out := by
  rw [collect_generic_image]
  rw [attachFoldl [("representativeOfPage", Json.bool true), ("url", Json.str u2)]
    (fun p acc => collect_generic_image p.2 acc)]
  rw [show jget [("representativeOfPage", Json.bool true), ("url", Json.str u2)] "image" =
    none from rfl]
  rw [show jget [("representativeOfPage", Json.bool true), ("url", Json.str u2)] "@graph" =
    none from rfl]
  dsimp only
  simp only [List.foldl]
  rw [cgi_bool, cgi_str]

theorem cgi_plain (u1 : String) (out : List String) :
    collect_generic_image (imgPlainObj u1) out = out ++ push_clean u1 := by
  unfold imgPlainObj
  rw [collect_generic_image]
  rw [attachFoldl [("image", Json.str u1)] (fun p acc => collect_generic_image p.2 acc)]
  rw [show jget [("image", Json.str u1)] "image" = some (Json.str u1) from rfl]
  rw [show jget [("image", Json.str u1)] "@graph" = none from rfl]
  dsimp only [Json.asObj]
  rw [piv_str]
  simp only [List.foldl]
  rw [cgi_str]

theorem cgi_rep (u2 : String) (out : List String) :
    collect_generic_image (imgRepObj u2) out = push_clean u2 ++ out := by
  unfold imgRepObj
  rw [collect_generic_image]
  rw [attachFoldl
    [("image", Json.obj [("representativeOfPage", Json.bool true), ("url", Json.str u2)])]
    (fun p acc => collect_generic_image p.2 acc)]
  rw [show jget
    [("image", Json.obj [("representativeOfPage", Json.bool true), ("url", Json.str u2)])]
    "image" = some (Json.obj [("representativeOfPage", Json.bool true), ("url", Json.str u2)])
    from rfl]
  rw [show jget
    [("image", Json.obj [("representativeOfPage", Json.bool true), ("url", Json.str u2)])]
    "@graph" = none from rfl]
  dsimp only [Json.asObj]
  rw [if_pos (show ((jget [("representativeOfPage", Json.bool true), ("url", Json.str u2)]
    "representativeOfPage").bind Json.asBool == some true) = true from rfl)]
  rw [piv_obj]
  rw [show (jget [("representativeOfPage", Json.bool true), ("url", Json.str u2)]
    "contentUrl").orElse
    (fun _ => jget [("representativeOfPage", Json.bool true), ("url", Json.str u2)] "url") =
    some (Json.str u2) from rfl]
  dsimp only
  simp only [List.foldl]
  rw [cgi_rep_inner]

/-- C6: in the generic-image walk an image object with
`representativeOfPage: true` has its URL prepended to the candidates
collected so far while plain candidates are appended; consequently, on a
document whose single JSON-LD block holds exactly the two candidates
`u1` (plain, first) and `u2` (representative, second), the generic-image
strategy resolves to `u2`'s absolutized URL, and so does the thumbnail
resolver when no earlier strategy succeeds. -/
theorem claim_generic_image_prefer (ctx : Ctx) (doc : Doc) (u1 u2 : String)
    (h1 : rustTrimS u1 = u1) (h1n : u1 ≠ "") (h2 : rustTrimS u2 = u2) (h2n : u2 ≠ "") :
    collect_generic_image (.arr [imgPlainObj u1, imgRepObj u2]) [] = [u2, u1] ∧
      (∀ a, ldJsonValues ctx doc = [.arr [imgPlainObj u1, imgRepObj u2]] →
        absolutise ctx u2 = some a → schema_image_jsonld ctx doc = some a) ∧
      (∀ a, og_image ctx doc = none → twitter_image ctx doc = none →
        schema_primary_image_jsonld ctx doc = none →
        schema_primary_image_microdata_rdfa ctx doc = none →
        schema_image_jsonld ctx doc = some a → thumbnailResolve ctx doc = some a) := by
  have hmain : collect_generic_image (.arr [imgPlainObj u1, imgRepObj u2]) [] = [u2, u1] := by
    rw [cgi_arr]
    simp only [List.foldl]
    rw [cgi_plain, cgi_rep]
    unfold push_clean
    simp [h1, h2, h1n, h2n]
  refine ⟨hmain, ?_, ?_⟩
  · intro a hld habs
    unfold schema_image_jsonld
    rw [hld]
    simp only [List.foldl]
    rw [hmain]
    simp [habs]
  · intro a g1 g2 g3 g4 g5
    unfold thumbnailResolve
    rw [g1, g2, g3, g4, g5]
    rfl

theorem cpi_str (s : String) : collect_primary_image (.str s) = [] := by
  rw [collect_primary_image]
  · exact fun m h => Json.noConfusion h
  · exact fun a h => Json.noConfusion h

theorem cpi_bool (b : Bool) : collect_primary_image (.bool b) = [] := by
  rw [collect_primary_image]
  · exact fun m h => Json.noConfusion h
  · exact fun a h => Json.noConfusion h

theorem cpi_arr (a : List Json) :
    collect_primary_image (.arr a) = (a.map collect_primary_image).flatten := by
  rw [collect_primary_image]
  rw [attachMapFlatten a collect_primary_image]

theorem cpi_noType (m : List (String × Json)) (h : jget m "@type" = none)
    (hg : jget m "@graph" = none) :
    collect_primary_image (.obj m) = (m.map (fun p => collect_primary_image p.2)).flatten := by
  rw [collect_primary_image]
  rw [attachMapFlatten m (fun p => collect_primary_image p.2)]
  rw [show is_type m "WebPage" = false by unfold is_type; rw [h]]
  rw [hg]
  simp



theorem spiw_eval : schema_primary_image_jsonld ctxImgW docImgW = none := by
  unfold schema_primary_image_jsonld
  rw [show ldJsonValues ctxImgW docImgW =
    [Json.arr [imgPlainObj "https://e/1.png", imgRepObj "https://e/2.png"]] from rfl]
  rw [List.map_cons, List.map_nil, cpi_arr]
  unfold imgPlainObj imgRepObj
  rw [List.map_cons, List.map_cons, List.map_nil]
  rw [cpi_noType [("image", Json.str "https://e/1.png")] rfl rfl]
  rw [cpi_noType [("image", Json.obj [("representativeOfPage", Json.bool true),
    ("url", Json.str "https://e/2.png")])] rfl rfl]
  rw [List.map_cons, List.map_nil, cpi_str]
  rw [List.map_cons, List.map_nil]
  rw [cpi_noType [("representativeOfPage", Json.bool true),
    ("url", Json.str "https://e/2.png")] rfl rfl]
  rw [List.map_cons, List.map_cons, List.map_nil, cpi_bool, cpi_str]
  rfl

/-- Witness for C6 at concrete URLs: the representative candidate wins. -/
theorem claim_generic_image_prefer_witness :
    collect_generic_image
        (.arr [imgPlainObj "https://e/1.png", imgRepObj "https://e/2.png"]) [] =
      ["https://e/2.png", "https://e/1.png"] ∧
      thumbnailResolve ctxImgW docImgW = some "https://e/2.png" := by
  have h := claim_generic_image_prefer ctxImgW docImgW "https://e/1.png" "https://e/2.png"
    (by decide) (by decide) (by decide) (by decide)
  exact ⟨h.1, h.2.2 "https://e/2.png" rfl rfl spiw_eval rfl (h.2.1 "https://e/2.png" rfl rfl)⟩

/-! ## C7 — fatal errors are exactly primary fetch/read failures -/

/-- C7: `Entry::new` returns an error exactly when the primary fetch fails
or the body cannot be read as text; with a body in hand construction always
succeeds, whatever the collaborators do — in particular a failing secondary
fetch makes the manifest and oEmbed strategies yield `none` (falling
through to the next strategy), and failing JSON parses silence every
JSON-LD strategy. -/
theorem claim_fatal_errors_only (ctx : Ctx) (t : Option String) :
    (∀ fetched, (∃ e, EntryNew ctx fetched t = .ok e) ↔ ∃ b, fetched = .ok b) ∧
      EntryNew ctx .fetchFail t = .error (.fetchError ctx.baseUrl) ∧
      EntryNew ctx .readFail t = .error (.readToStringError ctx.baseUrl) ∧
      (∀ doc, (∀ u, ctx.net u = none) →
        manifest_site_name ctx doc = none ∧ manifest_description ctx doc = none ∧
          oembed_thumbnail ctx doc = none) ∧
      (∀ doc, (∀ s, ctx.parseJson s = none) →
        ldJsonValues ctx doc = [] ∧ json_ld_title ctx doc = none ∧
          json_ld_authors ctx doc = none ∧ schema_image_jsonld ctx doc = none) := by
  refine ⟨?_, rfl, rfl, ?_, ?_⟩
  · intro fetched
    cases fetched with
    | fetchFail =>
      constructor
      · rintro ⟨e, he⟩
        cases he
      · rintro ⟨b, hb⟩
        cases hb
    | readFail =>
      constructor
      · rintro ⟨e, he⟩
        cases he
      · rintro ⟨b, hb⟩
        cases hb
    | ok body =>
      exact ⟨fun _ => ⟨body, rfl⟩, fun _ => ⟨entryFromBody ctx body t, rfl⟩⟩
  · intro doc hnet
    refine ⟨?_, ?_, ?_⟩
    · unfold manifest_site_name
      cases h1 : ((docSelect doc (selLinkRelWord "manifest")).filterMap
          (fun l => getAttr l.attrs "href")).head? with
      | none => rfl
      | some href =>
        dsimp only
        cases h2 : ctx.joinBase href with
        | none => rfl
        | some mu =>
          dsimp only
          rw [hnet mu]
    · unfold manifest_description
      cases h1 : ((docSelect doc (selLinkRelWord "manifest")).filterMap
          (fun l => getAttr l.attrs "href")).head? with
      | none => rfl
      | some href =>
        dsimp only
        cases h2 : ctx.joinBase href with
        | none => rfl
        | some mu =>
          dsimp only
          rw [hnet mu]
    · unfold oembed_thumbnail
      cases h1 : oembedHref doc with
      | none => rfl
      | some href =>
        dsimp only
        cases h2 : ctx.joinBase href with
        | none => rfl
        | some mu =>
          dsimp only
          rw [hnet mu]
  · intro doc hjson
    have hld : ldJsonValues ctx doc = [] := by
      unfold ldJsonValues
      rw [List.filterMap_eq_nil_iff]
      intro e _
      exact hjson _
    refine ⟨hld, ?_, ?_, ?_⟩
    · unfold json_ld_title
      rw [hld]
      rfl
    · unfold json_ld_authors
      rw [hld]
      rfl
    · unfold schema_image_jsonld
      rw [hld]
      rfl

/-- Witness for C7: a successful body yields a constructed entry even when
every secondary fetch and JSON parse fails, and both failure kinds map to
their errors. -/
theorem claim_fatal_errors_only_witness :
    (∃ e, EntryNew ctxMini (.ok "B") none = .ok e) ∧
      EntryNew ctxMini .fetchFail none = .error (.fetchError "https://example.com/dir/page") ∧
      manifest_site_name ctxMini docManifestW = none ∧
      json_ld_authors ctxMini docSiteW = none :=
  ⟨((claim_fatal_errors_only ctxMini none).1 (.ok "B")).mpr ⟨"B", rfl⟩,
    (claim_fatal_errors_only ctxMini none).2.1,
    ((claim_fatal_errors_only ctxMini none).2.2.2.1 docManifestW (fun _ => rfl)).1,
    ((claim_fatal_errors_only ctxMini none).2.2.2.2 docSiteW (fun _ => rfl)).2.2.1⟩

/-! ## C8 — which oEmbed links are followed -/



/-- Counterexample to C8: on a document whose only oEmbed link is typed
`text/xml+oembed` (no `application/json+oembed` link exists), the strategy
still selects that link and computes the URL it fetches (entry.rs lines
886-899 join and request it before any type-based gating) — the secondary
fetch is not restricted to `application/json+oembed` links. -/
theorem claim_oembed_json_only_cex :
    (∀ v ∈ (docSelect docOemXmlW (selTag "link")).filterMap
        (fun l => getAttr l.attrs "type"), asciiLower v ≠ "application/json+oembed") ∧
      oembedHref docOemXmlW = some "/oe" ∧
      oembedRequestUrl ctxOemW docOemXmlW = some "https://example.com/oe" ∧
      ctxOemW.net "https://example.com/oe" = some "OBODY" ∧
      oembed_thumbnail ctxOemW docOemXmlW = none :=
  ⟨by decide, rfl, rfl, rfl, rfl⟩

/-- C8 as amended: the oEmbed strategy follows (fetches) the first
`rel~=alternate` link whose lowercased type is `application/json+oembed`
or `text/xml+oembed`; the fetched body is parsed as JSON only when the
link's href contains `"json+oembed"`, in which case `thumbnail_url`, else
`url`, is passed through the absolutizer; otherwise the strategy yields
nothing. -/
theorem claim_oembed_follow_amended (ctx : Ctx) (doc : Doc) (href : String) :
    (oembedHref doc = some href → oembedRequestUrl ctx doc = ctx.joinBase href) ∧
      (oembedHref doc = some href → strContainsSub href "json+oembed" = false →
        oembed_thumbnail ctx doc = none) ∧
      (∀ u body v s, oembedHref doc = some href → ctx.joinBase href = some u →
        ctx.net u = some body → strContainsSub href "json+oembed" = true →
        ctx.parseJson body = some v →
        ((v.get "thumbnail_url").bind Json.asStr).or ((v.get "url").bind Json.asStr) =
          some s →
        oembed_thumbnail ctx doc = absolutise ctx s) ∧
      (oembedHref doc = none → oembed_thumbnail ctx doc = none) := by
  refine ⟨?_, ?_, ?_, ?_⟩
  · intro h
    unfold oembedRequestUrl
    rw [h]
    rfl
  · intro h hplain
    unfold oembed_thumbnail
    rw [h]
    dsimp only
    cases ctx.joinBase href with
    | none => rfl
    | some u =>
      dsimp only
      cases ctx.net u with
      | none => rfl
      | some body =>
        dsimp only
        rw [hplain]
        rfl
  · intro u body v s h hj hn hjson hp hval
    unfold oembed_thumbnail
    rw [h]
    dsimp only
    rw [hj]
    dsimp only
    rw [hn]
    dsimp only
    rw [hjson]
    simp only [Bool.true_eq_false, if_true]
    rw [hp]
    dsimp only
    rw [hval]
  · intro h
    unfold oembed_thumbnail
    rw [h]



/-- Witness for C8's amended statement: the JSON endpoint contributes its
`thumbnail_url` through the absolutizer, and an href without
`json+oembed` yields nothing. -/
theorem claim_oembed_follow_amended_witness :
    oembed_thumbnail ctxOemJsonW docOemJsonW = some "https://e/t.png" ∧
      oembed_thumbnail ctxOemW docOemXmlW = none :=
  ⟨((claim_oembed_follow_amended ctxOemJsonW docOemJsonW "/json+oembed/oe").2.2.1
      "https://example.com/json+oembed/oe" "OBODY"
      (.obj [("thumbnail_url", .str "https://e/t.png")]) "https://e/t.png"
      rfl rfl rfl (by decide) rfl rfl).trans rfl,
    (claim_oembed_follow_amended ctxOemW docOemXmlW "/oe").2.1 rfl (by decide)⟩

end Spy
